import Mathlib

/-!
Verification development for a content-based movie recommendation program
(file `mainRSystem.py`).  The program pipeline is:

  tokenize-string → tokenize → featurize (tf-idf over a sorted vocabulary,
  document frequency by substring containment) → train/test split →
  cosine similarity → per-test-row rating prediction → mean absolute error.

Numbers that the program handles as machine floats are modelled as real
numbers; operations that can raise a runtime fault (indexing an empty
selection, dividing by an exact zero) are modelled in the `Option` monad,
returning `none` on the fault.
-/

set_option maxHeartbeats 1000000

namespace RecSys

/-! ## Tokenizer (source: `tokenize_string`, line 29)

`re.findall('[\w\-]+', my_string.lower())`: the maximal runs of word
characters (alphanumeric or underscore) and hyphens of the lowercased
string, in order. -/

/-- Characters matched by the character class `[\w\-]`. -/
def isTokenChar (c : Char) : Bool := c.isAlphanum || c == '_' || c == '-'

/-- The character list of the lowercased string (`my_string.lower()`). -/
def lowerChars (s : String) : List Char := s.toList.map Char.toLower

/-- Right-fold worker: returns the run currently being built at the front of
the input together with the completed runs after it. -/
def runsAux : List Char → List Char × List (List Char)
  | [] => ([], [])
  | c :: cs =>
    let p := runsAux cs
    if isTokenChar c then (c :: p.1, p.2)
    else ([], if p.1.isEmpty then p.2 else p.1 :: p.2)

/-- The maximal runs of token characters of a character list, in order:
the semantics of `re.findall('[\w\-]+', ·)`. -/
def splitRuns (l : List Char) : List (List Char) :=
  let p := runsAux l
  if p.1.isEmpty then p.2 else p.1 :: p.2

/-- Source `tokenize_string` (line 29): lowercase, then extract the maximal
runs of word characters and hyphens. -/
def tokenize_string (my_string : String) : List String :=
  (splitRuns (lowerChars my_string)).map (fun r => String.mk r)

/-! ## Data model -/

/-- One row of the movies table as read from `movies.csv`. -/
structure Movie where
  movieId : Nat
  genres : String
deriving DecidableEq, Repr

/-- A movies row after `tokenize` appended the `tokens` column. -/
structure MovieTok where
  movieId : Nat
  genres : String
  tokens : List String
deriving DecidableEq, Repr

/-- A `csr_matrix` of shape `(1, dim)`: the stored entries are
(column, value) pairs; reading any column sums the stored values at that
column (absent columns read as zero), exactly as `scipy` indexing does. -/
structure SparseVec where
  dim : Nat
  entries : List (Nat × ℝ)

/-- A movies row after `featurize` appended the `features` column. -/
structure MovieFeat where
  movieId : Nat
  genres : String
  tokens : List String
  features : SparseVec

/-- One row of the ratings table. -/
structure Rating where
  userId : Nat
  movieId : Nat
  rating : ℝ

/-- Source `tokenize` (line 35): append the token list of each genre
string. -/
def tokenize (movies : List Movie) : List MovieTok :=
  movies.map (fun m => ⟨m.movieId, m.genres, tokenize_string m.genres⟩)

/-! ## Vocabulary and document frequency (source: `featurize`, lines 84-96) -/

/-- Lexicographic comparison of character lists by code point: the order
`sorted` uses on Python strings. -/
def lexLe : List Char → List Char → Bool
  | [], _ => true
  | _ :: _, [] => false
  | a :: as, b :: bs =>
    if a.toNat < b.toNat then true
    else if b.toNat < a.toNat then false
    else lexLe as bs

/-- Alphabetical (code-point lexicographic) order on strings. -/
def strLe (a b : String) : Prop := lexLe a.toList b.toList = true

instance : DecidableRel strLe := fun a b =>
  inferInstanceAs (Decidable (lexLe a.toList b.toList = true))

/-- Source lines 84-92: flatten all token lists, keep the distinct terms,
sort alphabetically.  The vocabulary index of a term is its position in this
list. -/
def buildVocab (movies : List MovieTok) : List String :=
  List.insertionSort strLe ((movies.map MovieTok.tokens).flatten.dedup)

/-- Source line 96: the document frequency of a term is the number of
movies whose lowercased genre string contains the term as a substring
(`movies.genres.str.lower().str.contains(term).sum()`; the pattern only
holds word characters and hyphens, so the regex search is a plain substring
test). -/
def dfCount (movies : List MovieTok) (t : String) : Nat :=
  movies.countP (fun m => decide (t.toList <:+: lowerChars m.genres))

/-- Source line 102: the count of the most common term of the row
(`Counter(row).most_common(1)[0]`). -/
def maxTF (row : List String) : Nat :=
  (row.dedup.map (fun t => row.count t)).foldr max 0

/-- Source line 106: `tf / max_k_tf * math.log10(N / df)`. -/
noncomputable def tfidf (N tf maxtf df : Nat) : ℝ :=
  (tf : ℝ) / (maxtf : ℝ) * Real.logb 10 ((N : ℝ) / (df : ℝ))

/-- Source lines 98-110, one row: the sparse feature vector of one movie.
`Counter(row).most_common(1)[0]` raises `IndexError` on an empty token
list, hence the `none` branch. -/
noncomputable def featurizeRow (vocab : List String) (N : Nat) (df : String → Nat)
    (row : List String) : Option SparseVec :=
  if row.isEmpty then none
  else some ⟨vocab.length,
    row.dedup.map (fun term =>
      (List.indexOf term vocab, tfidf N (row.count term) (maxTF row) (df term)))⟩

/-- The per-row loop of `featurize` (lines 98-112), in row order. -/
noncomputable def featurizeAll (vocab : List String) (N : Nat) (df : String → Nat) :
    List MovieTok → Option (List MovieFeat)
  | [] => some []
  | m :: ms =>
    match featurizeRow vocab N df m.tokens, featurizeAll vocab N df ms with
    | some f, some rest => some (⟨m.movieId, m.genres, m.tokens, f⟩ :: rest)
    | _, _ => none

/-- Source `featurize` (line 61): build the vocabulary and the document
frequency table, then attach a tf-idf feature vector to every movie; also
return the vocabulary. -/
noncomputable def featurize (movies : List MovieTok) :
    Option (List MovieFeat × List String) :=
  let vocab := buildVocab movies
  (featurizeAll vocab movies.length (dfCount movies) movies).map
    (fun fms => (fms, vocab))

/-! ## Dataset split (source: `train_test_split`, line 118) -/

/-- Source `train_test_split` (line 118): the test rows sit at the
positions `range(len(ratings))[::1000]` (the multiples of 1000), the train
rows at the sorted complement; `iloc` keeps the listed order.  Returns
`(train, test)` as the source does. -/
def train_test_split {α : Type} (ratings : List α) : List α × List α :=
  let n := ratings.length
  let testIdx := (List.range n).filter (fun i => i % 1000 == 0)
  let trainIdx := (List.range n).filter (fun i => !(i % 1000 == 0))
  (trainIdx.filterMap (fun i => ratings[i]?), testIdx.filterMap (fun i => ratings[i]?))

/-- Rows of `l` sitting at a position satisfying `p`, in original order:
the phrasing of the specification for both halves of the split. -/
def rowsAt {α : Type} (l : List α) (p : Nat → Bool) : List α :=
  (l.enum.filter (fun q => p q.1)).map Prod.snd

/-! ## Cosine similarity (source: `cosine_sim`, line 128) -/

/-- Reading column `i` of a 1-row sparse matrix (`a[0, i]`): the sum of the
stored values at that column, zero when none is stored. -/
noncomputable def vecAt (v : SparseVec) (i : Nat) : ℝ :=
  ((v.entries.filter (fun e => e.1 == i)).map Prod.snd).sum

/-- Source lines 141-144 and 146-149: the squared Euclidean norm computed
over the stored entries (`for i in a.data: value += i*i`). -/
noncomputable def sqnormData (v : SparseVec) : ℝ :=
  (v.entries.map (fun e => e.2 * e.2)).sum

/-- The Euclidean norm of the stored entries. -/
noncomputable def normOf (v : SparseVec) : ℝ := Real.sqrt (sqnormData v)

/-- Source lines 151-156: `value += b[0,i] * a[0,i]` over every column
`i < a._shape[1]`. -/
noncomputable def dotFull (a b : SparseVec) : ℝ :=
  ((List.range a.dim).map (fun i => vecAt b i * vecAt a i)).sum

open Classical

/-- Source `cosine_sim` (line 128): `dot / (normA * normB)`.  A zero
denominator is a division by zero, modelled as the fault value `none`. -/
noncomputable def cosine_sim (a b : SparseVec) : Option ℝ :=
  if normOf a * normOf b = 0 then none
  else some (dotFull a b / (normOf a * normOf b))

/-! ## Prediction (source: `make_predictions`, line 162) -/

/-- The inner loop of `make_predictions` (lines 192-195): for each training
row of the user, in order, look up the first movies row with the training
row's movieId and the first one with the test row's movieId (`.values[0]`
raises on an empty selection) and take their cosine similarity. -/
noncomputable def rowSims (movies : List MovieFeat) (testMovieId : Nat) :
    List Rating → Option (List ℝ)
  | [] => some []
  | u :: us =>
    match (movies.filter (fun m => m.movieId == u.movieId)).head?,
          (movies.filter (fun m => m.movieId == testMovieId)).head? with
    | some ftr, some fte =>
      match cosine_sim ftr.features fte.features, rowSims movies testMovieId us with
      | some s, some rest => some (s :: rest)
      | _, _ => none
    | _, _ => none

/-- The body of the outer loop of `make_predictions` (lines 186-203): the
user's training rows, their similarities to the test movie,
`cosine_arr = [rating * sim]`, `Scosine = sum(cosine_arr)`; prediction
`Scosine / sum(arr)` when `Scosine > 0`, else the user's mean training
rating (`sum/len` raises on an empty selection, hence `none`). -/
noncomputable def predictRow (movies : List MovieFeat) (ratings_train : List Rating)
    (r : Rating) : Option ℝ :=
  let users := ratings_train.filter (fun u => u.userId == r.userId)
  match rowSims movies r.movieId users with
  | none => none
  | some arr =>
    let cosineArr := ((users.map Rating.rating).zip arr).map (fun p => p.1 * p.2)
    let Scosine := cosineArr.sum
    if 0 < Scosine then some (Scosine / arr.sum)
    else if users.length = 0 then none
    else some ((users.map Rating.rating).sum / (users.length : ℝ))

/-- Source `make_predictions` (line 162): one prediction per test row, in
test order; any per-row fault aborts the whole call. -/
noncomputable def make_predictions (movies : List MovieFeat)
    (ratings_train : List Rating) : List Rating → Option (List ℝ)
  | [] => some []
  | r :: rs =>
    match predictRow movies ratings_train r, make_predictions movies ratings_train rs with
    | some p, some ps => some (p :: ps)
    | _, _ => none

/-! ## Evaluation (source: `mean_absolute_error`, line 209) -/

/-- Source `mean_absolute_error` (line 209):
`np.abs(predictions - np.array(ratings_test.rating)).mean()`. -/
noncomputable def mean_absolute_error (predictions : List ℝ)
    (ratings_test : List Rating) : ℝ :=
  ((predictions.zip (ratings_test.map Rating.rating)).map (fun p => |p.1 - p.2|)).sum
    / (predictions.length : ℝ)

/-! ## Concrete data used by the witness theorems -/

/-- Feature row: movie 1, genre `"a"`, a unit weight at vocabulary index 0. -/
noncomputable def wMovieA : MovieFeat := ⟨1, "a", ["a"], ⟨2, [(0, 1)]⟩⟩

/-- Feature row: movie 2, genre `"b"`, a unit weight at vocabulary index 1. -/
noncomputable def wMovieB : MovieFeat := ⟨2, "b", ["b"], ⟨2, [(1, 1)]⟩⟩

/-- One training rating: user 9 rated movie 1 with 4. -/
noncomputable def wTrain : List Rating := [⟨9, 1, 4⟩]

/-- One test row: user 9, movie 2. -/
noncomputable def wTest : List Rating := [⟨9, 2, 0⟩]

/-- A sparse vector with entries 3 and 4 (norm 5). -/
noncomputable def vA : SparseVec := ⟨2, [(0, 3), (1, 4)]⟩

/-- A sparse vector with entries 4 and 3 (norm 5). -/
noncomputable def vB : SparseVec := ⟨2, [(0, 4), (1, 3)]⟩

/-- The zero sparse vector of dimension 2. -/
noncomputable def vZ : SparseVec := ⟨2, []⟩


/-- First movie of the doctest catalog with its tf-idf features. -/
noncomputable def fHR : MovieFeat :=
  ⟨123, "Horror|Romance", ["horror", "romance"],
    ⟨3, [(0, Real.logb 10 2), (1, Real.logb 10 2)]⟩⟩

/-- Second movie of the doctest catalog with its tf-idf features. -/
noncomputable def fSF : MovieFeat :=
  ⟨456, "Sci-Fi", ["sci-fi"], ⟨3, [(2, Real.logb 10 2)]⟩⟩

/-- The doctest catalog's vocabulary. -/
def vocabHRS : List String := ["horror", "romance", "sci-fi"]

/-! ## Tokenizer lemmas -/

lemma runsAux_chars : ∀ l : List Char,
    (∀ c ∈ (runsAux l).1, isTokenChar c = true)
    ∧ ∀ r ∈ (runsAux l).2, r ≠ [] ∧ ∀ c ∈ r, isTokenChar c = true := by
  intro l
  induction l with
  | nil => simp [runsAux]
  | cons c cs ih =>
    by_cases hc : isTokenChar c = true
    · simp only [runsAux, hc, if_true]
      refine ⟨?_, ih.2⟩
      intro d hd
      rcases List.mem_cons.1 hd with h1 | h1
      · rw [h1]; exact hc
      · exact ih.1 d h1
    · simp only [runsAux, hc, if_false]
      refine ⟨by simp, ?_⟩
      by_cases he : (runsAux cs).1.isEmpty
      · simpa [he] using ih.2
      · simp only [he, if_false]
        intro r hr
        rcases List.mem_cons.1 hr with h1 | h1
        · subst h1
          exact ⟨by simpa [List.isEmpty_iff] using he, ih.1⟩
        · exact ih.2 r h1

lemma runsAux_within : ∀ l : List Char,
    (runsAux l).1 <+: l ∧ ∀ r ∈ (runsAux l).2, r <:+: l := by
  intro l
  induction l with
  | nil => simp [runsAux]
  | cons c cs ih =>
    by_cases hc : isTokenChar c = true
    · simp only [runsAux, hc, if_true]
      exact ⟨(List.cons_prefix_cons).2 ⟨rfl, ih.1⟩,
             fun r hr => List.infix_cons (ih.2 r hr)⟩
    · simp only [runsAux, hc, if_false]
      refine ⟨ List.nil_prefix, ?_⟩
      by_cases he : (runsAux cs).1.isEmpty
      · simp only [he, if_true]
        exact fun r hr => List.infix_cons (ih.2 r hr)
      · simp only [he, if_false]
        intro r hr
        rcases List.mem_cons.1 hr with h1 | h1
        · exact h1 ▸ List.infix_cons (List.IsPrefix.isInfix ih.1)
        · exact List.infix_cons (ih.2 r h1)

lemma splitRuns_chars {l : List Char} {r : List Char} (hr : r ∈ splitRuns l) :
    r ≠ [] ∧ ∀ c ∈ r, isTokenChar c = true := by
  unfold splitRuns at hr
  by_cases he : (runsAux l).1.isEmpty
  · exact (runsAux_chars l).2 r (by simpa [he] using hr)
  · simp only [he, if_false] at hr
    rcases List.mem_cons.1 hr with h1 | h1
    · exact h1 ▸ ⟨by simpa [List.isEmpty_iff] using he, (runsAux_chars l).1⟩
    · exact (runsAux_chars l).2 r h1

lemma splitRuns_within {l : List Char} {r : List Char} (hr : r ∈ splitRuns l) :
    r <:+: l := by
  unfold splitRuns at hr
  by_cases he : (runsAux l).1.isEmpty
  · exact (runsAux_within l).2 r (by simpa [he] using hr)
  · simp only [he, if_false] at hr
    rcases List.mem_cons.1 hr with h1 | h1
    · exact h1 ▸ List.IsPrefix.isInfix (runsAux_within l).1
    · exact (runsAux_within l).2 r h1

lemma runsAux_of_no_token {l : List Char} (h : ∀ c ∈ l, isTokenChar c = false) :
    runsAux l = ([], []) := by
  induction l with
  | nil => rfl
  | cons c cs ih =>
    have hc : isTokenChar c = false := h c (by simp)
    have ih2 := ih (fun d hd => h d (by simp [hd]))
    simp [runsAux, hc, ih2]

lemma splitRuns_of_no_token {l : List Char} (h : ∀ c ∈ l, isTokenChar c = false) :
    splitRuns l = [] := by
  simp [splitRuns, runsAux_of_no_token h]

lemma tokenize_string_within {s : String} {t : String} (ht : t ∈ tokenize_string s) :
    t.toList <:+: lowerChars s := by
  rcases List.mem_map.1 ht with ⟨r, hr, hrt⟩
  have h2 : t.toList = r := by rw [← hrt]; rfl
  rw [h2]
  exact splitRuns_within hr

/-- C5: for every input string, tokenization returns the maximal runs of
word characters and hyphens of the lowercased string, in order:
`tokenize_string "Horror|Romance" = ["horror", "romance"]`,
`tokenize_string "Sci-Fi" = ["sci-fi"]`; an empty or separator-only string
yields the empty sequence, and every produced token is a non-empty run of
token characters. -/
theorem c5_tokenize_string :
    tokenize_string "Horror|Romance" = ["horror", "romance"]
    ∧ tokenize_string "Sci-Fi" = ["sci-fi"]
    ∧ tokenize_string "" = []
    ∧ (∀ s : String, (∀ c ∈ lowerChars s, isTokenChar c = false) →
        tokenize_string s = [])
    ∧ (∀ (s : String) (t : String), t ∈ tokenize_string s →
        t.toList ≠ [] ∧ (∀ c ∈ t.toList, isTokenChar c = true)
          ∧ t.toList <:+: lowerChars s) := by
  refine ⟨by decide, by decide, by decide, ?_, ?_⟩
  · intro s hs
    simp [tokenize_string, splitRuns_of_no_token hs]
  · intro s t ht
    rcases List.mem_map.1 ht with ⟨r, hr, hrt⟩
    have h2 : t.toList = r := by rw [← hrt]; rfl
    rcases splitRuns_chars hr with ⟨h3, h4⟩
    exact ⟨by rw [h2]; exact h3, by rw [h2]; exact h4, tokenize_string_within ht⟩

/-- Witness for C5 at concrete inputs: a separator-only string tokenizes to
the empty list, and the token `"sci-fi"` is a non-empty all-token-char
infix of the lowercased input. -/
theorem c5_witness :
    tokenize_string "| | ||" = []
    ∧ ("sci-fi" : String).toList ≠ []
    ∧ (∀ c ∈ ("sci-fi" : String).toList, isTokenChar c = true)
    ∧ ("sci-fi" : String).toList <:+: lowerChars "Sci-Fi" := by
  refine ⟨c5_tokenize_string.2.2.2.1 "| | ||" (by decide), ?_⟩
  have h := c5_tokenize_string.2.2.2.2 "Sci-Fi" "sci-fi" (by decide)
  exact ⟨h.1, h.2.1, h.2.2⟩


/-! ## Vocabulary order lemmas -/

lemma lexLe_total : ∀ a b : List Char, lexLe a b = true ∨ lexLe b a = true := by
  intro a
  induction a with
  | nil => intro b; left; rfl
  | cons x xs ih =>
    intro b
    cases b with
    | nil => right; rfl
    | cons y ys =>
      by_cases h1 : x.toNat < y.toNat
      · left; simp [lexLe, h1]
      · by_cases h2 : y.toNat < x.toNat
        · right; simp [lexLe, h2]
        · rcases ih ys with h | h
          · left; simp [lexLe, h1, h2, h]
          · right; simp [lexLe, h1, h2, h]

lemma lexLe_trans : ∀ a b c : List Char,
    lexLe a b = true → lexLe b c = true → lexLe a c = true := by
  intro a
  induction a with
  | nil => intro b c _ _; rfl
  | cons x xs ih =>
    intro b c hab hbc
    cases b with
    | nil => simp [lexLe] at hab
    | cons y ys =>
      cases c with
      | nil => simp [lexLe] at hbc
      | cons z zs =>
        simp only [lexLe] at hab hbc ⊢
        by_cases h1 : x.toNat < y.toNat
        · by_cases h2 : y.toNat < z.toNat
          · have : x.toNat < z.toNat := Nat.lt_trans h1 h2
            simp [this]
          · by_cases h3 : z.toNat < y.toNat
            · simp [h2, h3] at hbc
            · have hyz : y.toNat = z.toNat := Nat.le_antisymm (Nat.le_of_not_lt h3) (Nat.le_of_not_lt h2)
              have : x.toNat < z.toNat := hyz ▸ h1
              simp [this]
        · by_cases h2 : y.toNat < x.toNat
          · simp [h1, h2] at hab
          · have hxy : x.toNat = y.toNat := Nat.le_antisymm (Nat.le_of_not_lt h2) (Nat.le_of_not_lt h1)
            simp only [h1, h2, if_false] at hab
            by_cases h3 : y.toNat < z.toNat
            · have : x.toNat < z.toNat := hxy ▸ h3
              simp [this]
            · by_cases h4 : z.toNat < y.toNat
              · simp [h3, h4] at hbc
              · simp only [h3, h4, if_false] at hbc
                have hyz : y.toNat = z.toNat := Nat.le_antisymm (Nat.le_of_not_lt h4) (Nat.le_of_not_lt h3)
                have hxz : ¬ x.toNat < z.toNat := by rw [hxy, hyz]; exact Nat.lt_irrefl _
                have hzx : ¬ z.toNat < x.toNat := by rw [hxy, hyz]; exact Nat.lt_irrefl _
                simp [hxz, hzx, ih ys zs hab hbc]

instance : IsTotal String strLe :=
  ⟨fun a b => lexLe_total a.toList b.toList⟩

instance : IsTrans String strLe :=
  ⟨fun a b c => lexLe_trans a.toList b.toList c.toList⟩

lemma mem_buildVocab {movies : List MovieTok} {t : String} :
    t ∈ buildVocab movies ↔ ∃ m ∈ movies, t ∈ m.tokens := by
  unfold buildVocab
  rw [(List.perm_insertionSort strLe _).mem_iff, List.mem_dedup, List.mem_flatten]
  constructor
  · rintro ⟨tl, htl, ht⟩
    rcases List.mem_map.1 htl with ⟨m, hm, rfl⟩
    exact ⟨m, hm, ht⟩
  · rintro ⟨m, hm, ht⟩
    exact ⟨m.tokens, List.mem_map.2 ⟨m, hm, rfl⟩, ht⟩

lemma buildVocab_nodup (movies : List MovieTok) : (buildVocab movies).Nodup :=
  (List.perm_insertionSort strLe _).symm.nodup (List.nodup_dedup _)

lemma buildVocab_sorted (movies : List MovieTok) :
    List.Sorted strLe (buildVocab movies) :=
  List.sorted_insertionSort strLe _

/-- C4: the vocabulary is exactly the set of distinct tokens across all
movies, sorted alphabetically (code-point lexicographic order), and the
index of a term is its position in that sorted enumeration (0..k-1); on
the movies with token lists `["horror","romance"]` and `["sci-fi"]` the
vocabulary is `["horror","romance","sci-fi"]` with indices 0, 1, 2. -/
theorem c4_vocabulary :
    (∀ movies : List MovieTok,
        List.Sorted strLe (buildVocab movies)
        ∧ (buildVocab movies).Nodup
        ∧ (∀ t, t ∈ buildVocab movies ↔ ∃ m ∈ movies, t ∈ m.tokens)
        ∧ ∀ i : Fin (buildVocab movies).length,
            List.indexOf ((buildVocab movies).get i) (buildVocab movies) = (i : Nat))
    ∧ buildVocab (tokenize [⟨123, "Horror|Romance"⟩, ⟨456, "Sci-Fi"⟩])
        = ["horror", "romance", "sci-fi"]
    ∧ List.indexOf "horror"
        (buildVocab (tokenize [⟨123, "Horror|Romance"⟩, ⟨456, "Sci-Fi"⟩])) = 0
    ∧ List.indexOf "romance"
        (buildVocab (tokenize [⟨123, "Horror|Romance"⟩, ⟨456, "Sci-Fi"⟩])) = 1
    ∧ List.indexOf "sci-fi"
        (buildVocab (tokenize [⟨123, "Horror|Romance"⟩, ⟨456, "Sci-Fi"⟩])) = 2 := by
  refine ⟨?_, by decide, by decide, by decide, by decide⟩
  intro movies
  exact ⟨buildVocab_sorted movies, buildVocab_nodup movies,
         fun t => mem_buildVocab,
         fun i => List.get_indexOf (buildVocab_nodup movies) i⟩

/-- C8: every term of the vocabulary occurs among some movie's tokens, and
a token of a movie is a substring of that movie's own lowercased genre
text, so the substring document frequency of every vocabulary term is at
least 1 (given that the `tokens` column was produced by `tokenize_string`
from the `genres` column, as `tokenize` does). -/
theorem c8_df_positive (movies : List MovieTok)
    (hw : ∀ m ∈ movies, m.tokens = tokenize_string m.genres)
    (t : String) (ht : t ∈ buildVocab movies) :
    1 ≤ dfCount movies t := by
  rcases mem_buildVocab.1 ht with ⟨m, hm, htok⟩
  rw [hw m hm] at htok
  have hinf : t.toList <:+: lowerChars m.genres := tokenize_string_within htok
  have : 0 < dfCount movies t := by
    rw [dfCount, List.countP_pos_iff]
    exact ⟨m, hm, by simpa using hinf⟩
  omega

/-- Witness for C8: the vocabulary term `"horror"` of the one-movie catalog
`[(1, "Horror")]` has document frequency at least 1. -/
theorem c8_witness :
    1 ≤ dfCount (tokenize [⟨1, "Horror"⟩]) "horror" :=
  c8_df_positive (tokenize [⟨1, "Horror"⟩]) (by decide) "horror" (by decide)


/-! ## Split lemmas -/

lemma rowsAtFrom {α : Type} (p : Nat → Bool) :
    ∀ (l : List α) (k : Nat),
      ((List.enumFrom k l).filter (fun q => p q.1)).map Prod.snd
        = ((List.range l.length).filter (fun i => p (i + k))).filterMap
            (fun i => l[i]?) := by
  intro l
  induction l with
  | nil => intro k; simp
  | cons a l ih =>
    intro k
    rw [List.enumFrom_cons]
    simp only [List.length_cons, List.range_succ_eq_map]
    rw [List.filter_cons, List.filter_cons]
    have htail : (List.filter (fun i => p (i + k)) (List.map Nat.succ (List.range l.length))).filterMap
        (fun i => (a :: l)[i]?) = ((List.enumFrom (k + 1) l).filter (fun q => p q.1)).map Prod.snd := by
      rw [List.filter_map, List.filterMap_map, ih (k + 1)]
      have hpred : List.filter ((fun i => p (i + k)) ∘ Nat.succ) (List.range l.length)
          = List.filter (fun i => p (i + (k + 1))) (List.range l.length) := by
        apply List.filter_congr
        intro i _
        have h5 : Nat.succ i + k = i + (k + 1) := by omega
        simp only [Function.comp, h5]
      rw [hpred]
      apply List.filterMap_congr
      intro i _
      simp [Function.comp, Nat.succ_eq_add_one, List.getElem?_cons_succ]
    by_cases hp : p k = true
    · simp only [hp, if_true, Nat.zero_add, List.map_cons, List.filterMap_cons]
      simp only [List.getElem?_cons_zero]
      rw [htail]
    · have hp2 : p k = false := by simpa using hp
      simp only [hp2, Bool.false_eq_true, if_false, Nat.zero_add]
      exact htail.symm

lemma rowsAt_eq {α : Type} (l : List α) (p : Nat → Bool) :
    rowsAt l p = ((List.range l.length).filter p).filterMap (fun i => l[i]?) := by
  unfold rowsAt
  have h1 : l.enum = List.enumFrom 0 l := rfl
  rw [h1, rowsAtFrom p l 0]
  have h2 : List.filter (fun i => p (i + 0)) (List.range l.length)
      = List.filter p (List.range l.length) := by
    apply List.filter_congr
    intro i _
    rfl
  rw [h2]

lemma train_test_split_eq {α : Type} (l : List α) :
    train_test_split l
      = (rowsAt l (fun i => !(i % 1000 == 0)), rowsAt l (fun i => i % 1000 == 0)) := by
  unfold train_test_split
  rw [rowsAt_eq l (fun i => !(i % 1000 == 0)), rowsAt_eq l (fun i => i % 1000 == 0)]

lemma rowsAt_union_perm {α : Type} (l : List α) (p : Nat → Bool) :
    (rowsAt l (fun i => !(p i)) ++ rowsAt l p).Perm l := by
  unfold rowsAt
  rw [← List.map_append]
  have h1 : List.filter (fun q => p q.1) l.enum
      = List.filter (fun q => !((fun q : Nat × α => !(p q.1)) q)) l.enum := by
    apply List.filter_congr
    intro q _
    simp
  rw [h1]
  have h2 := List.filter_append_perm (fun q : Nat × α => !(p q.1)) l.enum
  have h3 := h2.map Prod.snd
  rw [List.enum_map_snd] at h3
  exact h3

lemma length_filterMap_getElem {α : Type} (l : List α) :
    ∀ idx : List Nat, (∀ i ∈ idx, i < l.length) →
      (idx.filterMap (fun i => l[i]?)).length = idx.length := by
  intro idx
  induction idx with
  | nil => intro _; rfl
  | cons i idx ih =>
    intro h
    have hi : i < l.length := h i (by simp)
    rw [List.filterMap_cons]
    have : l[i]? = some l[i] := List.getElem?_eq_getElem hi
    simp only [this]
    simp [ih (fun j hj => h j (by simp [hj]))]

set_option maxRecDepth 10000 in
/-- C6: `train_test_split` puts the rows at positions 0, 1000, 2000, ...
into the test subset and every other row into the training subset, both in
original order; their union is a permutation of the whole collection (the
position sets are complementary); a 2500-row input yields 3 test rows and
2497 training rows. -/
theorem c6_train_test_split :
    (∀ (α : Type) (ratings : List α),
        train_test_split ratings
          = (rowsAt ratings (fun i => !(i % 1000 == 0)),
             rowsAt ratings (fun i => i % 1000 == 0))
        ∧ ((train_test_split ratings).1 ++ (train_test_split ratings).2).Perm ratings
        ∧ (train_test_split ratings).1.length + (train_test_split ratings).2.length
            = ratings.length)
    ∧ (train_test_split (List.range 2500)).2.length = 3
    ∧ (train_test_split (List.range 2500)).1.length = 2497 := by
  have hmain : ∀ (α : Type) (ratings : List α),
      train_test_split ratings
        = (rowsAt ratings (fun i => !(i % 1000 == 0)),
           rowsAt ratings (fun i => i % 1000 == 0))
      ∧ ((train_test_split ratings).1 ++ (train_test_split ratings).2).Perm ratings
      ∧ (train_test_split ratings).1.length + (train_test_split ratings).2.length
          = ratings.length := by
    intro α ratings
    have he := train_test_split_eq ratings
    have hperm : ((train_test_split ratings).1 ++ (train_test_split ratings).2).Perm ratings := by
      rw [he]
      exact rowsAt_union_perm ratings (fun i => i % 1000 == 0)
    refine ⟨he, hperm, ?_⟩
    have h4 := hperm.length_eq
    simpa using h4
  have hlen : ∀ p : Nat → Bool,
      (((List.range 2500).filter p).filterMap
          (fun i => (List.range 2500)[i]?)).length
        = ((List.range 2500).filter p).length := by
    intro p
    apply length_filterMap_getElem
    intro i hi
    have h6 : i ∈ List.range 2500 := (List.mem_filter.1 hi).1
    rw [List.length_range]
    exact List.mem_range.1 h6
  have htest : (train_test_split (List.range 2500)).2.length = 3 := by
    have h1 := train_test_split_eq (List.range 2500)
    have h2 : (train_test_split (List.range 2500)).2
        = rowsAt (List.range 2500) (fun i => i % 1000 == 0) := by rw [h1]
    rw [h2, rowsAt_eq, List.length_range, hlen]
    decide
  have hsum := (hmain Nat (List.range 2500)).2.2
  rw [List.length_range] at hsum
  exact ⟨hmain, htest, by omega⟩


/-! ## Cosine similarity lemmas -/

/-- C7: when both stored-entry Euclidean norms are non-zero, `cosine_sim`
returns the normalized dot product `dot(a,b) / (‖a‖·‖b‖)`; when either norm
is zero it faults (division by zero), returning no value rather than a
default such as 0. -/
theorem c7_cosine_sim :
    (∀ a b : SparseVec, normOf a ≠ 0 → normOf b ≠ 0 →
        cosine_sim a b = some (dotFull a b / (normOf a * normOf b)))
    ∧ ∀ a b : SparseVec, (normOf a = 0 ∨ normOf b = 0) → cosine_sim a b = none := by
  constructor
  · intro a b ha hb
    unfold cosine_sim
    rw [if_neg (mul_ne_zero ha hb)]
  · intro a b h
    unfold cosine_sim
    rw [if_pos]
    rcases h with h | h <;> simp [h]

/-- Witness for C7: on the vectors with entries (3,4) and (4,3) the value
is returned (both norms are non-zero); on the stored-entry-free zero vector
the computation faults. -/
theorem c7_witness :
    cosine_sim vA vB = some (dotFull vA vB / (normOf vA * normOf vB))
    ∧ cosine_sim vZ vB = none := by
  have ha : normOf vA ≠ 0 := by
    rw [normOf, Real.sqrt_ne_zero']
    show (0 : ℝ) < sqnormData vA
    rw [sqnormData]
    show (0 : ℝ) < ((vA.entries.map (fun e => e.2 * e.2))).sum
    norm_num [vA]
  have hb : normOf vB ≠ 0 := by
    rw [normOf, Real.sqrt_ne_zero']
    show (0 : ℝ) < sqnormData vB
    rw [sqnormData]
    norm_num [vB]
  have hz : normOf vZ = 0 := by
    rw [normOf]
    have h0 : sqnormData vZ = 0 := by simp [sqnormData, vZ]
    rw [h0, Real.sqrt_zero]
  exact ⟨c7_cosine_sim.1 vA vB ha hb, c7_cosine_sim.2 vZ vB (Or.inl hz)⟩

/-! ## Mean absolute error lemmas -/

lemma zip_self_fst_eq_snd {l : List ℝ} {p : ℝ × ℝ} (hp : p ∈ l.zip l) :
    p.1 = p.2 := by
  induction l with
  | nil => simp at hp
  | cons a l ih =>
    rw [List.zip_cons_cons] at hp
    rcases List.mem_cons.1 hp with h1 | h1
    · rw [h1]
    · exact ih h1

/-- C9: for equal-length prediction and actual-rating sequences, the mean
absolute error is non-negative, and it is 0 whenever the predictions
coincide with the actual ratings of a non-empty test set. -/
theorem c9_mean_absolute_error (predictions : List ℝ) (ratings_test : List Rating)
    (h : predictions.length = ratings_test.length) :
    0 ≤ mean_absolute_error predictions ratings_test
    ∧ (predictions = ratings_test.map Rating.rating → predictions ≠ [] →
        mean_absolute_error predictions ratings_test = 0) := by
  constructor
  · unfold mean_absolute_error
    apply div_nonneg
    · apply List.sum_nonneg
      intro x hx
      rcases List.mem_map.1 hx with ⟨p, _, rfl⟩
      exact abs_nonneg _
    · exact Nat.cast_nonneg _
  · intro heq _
    unfold mean_absolute_error
    rw [← heq]
    have hz : ((predictions.zip predictions).map (fun p => |p.1 - p.2|)).sum = 0 := by
      apply List.sum_eq_zero
      intro x hx
      rcases List.mem_map.1 hx with ⟨p, hp, rfl⟩
      rw [zip_self_fst_eq_snd hp]
      simp
    rw [hz, zero_div]

/-- Witness for C9: predictions `[3, 4]` against actual ratings `3` and `4`
give a non-negative error, namely 0. -/
theorem c9_witness :
    0 ≤ mean_absolute_error [(3 : ℝ), 4] [⟨1, 1, 3⟩, ⟨1, 2, 4⟩]
    ∧ mean_absolute_error [(3 : ℝ), 4] [⟨1, 1, 3⟩, ⟨1, 2, 4⟩] = 0 := by
  have h := c9_mean_absolute_error [(3 : ℝ), 4] [⟨1, 1, 3⟩, ⟨1, 2, 4⟩] rfl
  exact ⟨h.1, h.2 (by simp) (by simp)⟩


/-! ## Featurize lemmas -/

lemma featurizeAll_mem {vocab : List String} {N : Nat} {df : String → Nat} :
    ∀ {ms : List MovieTok} {fms : List MovieFeat},
      featurizeAll vocab N df ms = some fms →
      ∀ mf ∈ fms, ∃ m ∈ ms, mf.tokens = m.tokens
        ∧ featurizeRow vocab N df m.tokens = some mf.features := by
  intro ms
  induction ms with
  | nil =>
    intro fms h mf hmf
    simp only [featurizeAll] at h
    rw [← Option.some.injEq] at h
    simp only [Option.some.injEq] at h
    rw [← h] at hmf
    simp at hmf
  | cons m ms ih =>
    intro fms h mf hmf
    rw [featurizeAll] at h
    cases hr : featurizeRow vocab N df m.tokens with
    | none => rw [hr] at h; simp at h
    | some f =>
      cases ha : featurizeAll vocab N df ms with
      | none => rw [hr, ha] at h; simp at h
      | some rest =>
        rw [hr, ha] at h
        simp only [Option.some.injEq] at h
        rw [← h] at hmf
        rcases List.mem_cons.1 hmf with h1 | h1
        · refine ⟨m, by simp, ?_, ?_⟩
          · rw [h1]
          · rw [h1, hr]
        · rcases ih ha mf h1 with ⟨m2, hm2, h2, h3⟩
          exact ⟨m2, by simp [hm2], h2, h3⟩

lemma featurizeRow_some {vocab : List String} {N : Nat} {df : String → Nat}
    {row : List String} {v : SparseVec}
    (h : featurizeRow vocab N df row = some v) :
    row ≠ []
    ∧ v = ⟨vocab.length,
        row.dedup.map (fun term =>
          (List.indexOf term vocab, tfidf N (row.count term) (maxTF row) (df term)))⟩ := by
  unfold featurizeRow at h
  by_cases he : row.isEmpty
  · rw [if_pos he] at h; simp at h
  · rw [if_neg he] at h
    refine ⟨by simpa [List.isEmpty_iff] using he, ?_⟩
    exact (Option.some.inj h).symm

lemma vecAt_map (d : Nat) (row : List String) (vocab : List String)
    (g : String → ℝ) (i : Nat) :
    vecAt ⟨d, row.dedup.map (fun t => (List.indexOf t vocab, g t))⟩ i
      = ((row.dedup.filter (fun t => List.indexOf t vocab == i)).map g).sum := by
  unfold vecAt
  rw [List.filter_map, List.map_map]
  rfl

lemma filter_eq_singleton {α : Type} {l : List α} {a : α} {p : α → Bool}
    (hn : l.Nodup) (ha : a ∈ l) (hpa : p a = true)
    (huniq : ∀ b ∈ l, p b = true → b = a) :
    l.filter p = [a] := by
  induction l with
  | nil => simp at ha
  | cons x l ih =>
    rcases List.nodup_cons.1 hn with ⟨hx, hln⟩
    rcases List.mem_cons.1 ha with h1 | h1
    · rw [List.filter_cons]
      rw [← h1]
      rw [if_pos hpa]
      have hnil : l.filter p = [] := by
        rw [List.filter_eq_nil_iff]
        intro b hb hpb
        have hba : b = a := huniq b (by simp [hb]) hpb
        rw [← h1] at hx
        exact hx (hba ▸ hb)
      rw [hnil]
    · rw [List.filter_cons]
      have hpx : p x = false := by
        by_contra hc
        have : p x = true := by
          cases hpx2 : p x
          · exact absurd hpx2 hc
          · rfl
        have hxa : x = a := huniq x (by simp) this
        exact hx (hxa ▸ h1)
      rw [hpx]
      simp only [Bool.false_eq_true, if_false]
      exact ih hln h1 (fun b hb hpb => huniq b (by simp [hb]) hpb)

lemma le_foldr_max {x : Nat} : ∀ {l : List Nat}, x ∈ l → x ≤ l.foldr max 0 := by
  intro l
  induction l with
  | nil => intro h; simp at h
  | cons a l ih =>
    intro h
    rcases List.mem_cons.1 h with h1 | h1
    · rw [h1, List.foldr_cons]
      exact Nat.le_max_left _ _
    · exact Nat.le_trans (ih h1) (Nat.le_max_right _ _)

lemma count_le_maxTF {row : List String} {t : String} (ht : t ∈ row.dedup) :
    row.count t ≤ maxTF row :=
  le_foldr_max (List.mem_map.2 ⟨t, ht, rfl⟩)

lemma featurize_some_parts {movies : List MovieTok} {fms : List MovieFeat}
    {vocab : List String} (h : featurize movies = some (fms, vocab)) :
    vocab = buildVocab movies
    ∧ featurizeAll (buildVocab movies) movies.length (dfCount movies) movies
        = some fms := by
  unfold featurize at h
  have h2 : Option.map (fun fs => (fs, buildVocab movies))
      (featurizeAll (buildVocab movies) movies.length (dfCount movies) movies)
      = some (fms, vocab) := h
  cases ha : featurizeAll (buildVocab movies) movies.length (dfCount movies) movies with
  | none => rw [ha] at h2; exact Option.noConfusion h2
  | some fms2 =>
    rw [ha] at h2
    simp only [Option.map_some', Option.some.injEq, Prod.mk.injEq] at h2
    exact ⟨h2.2.symm, by rw [h2.1]⟩


lemma vecAt_feature {movies : List MovieTok} {fms : List MovieFeat}
    {vocab : List String} (h : featurize movies = some (fms, vocab))
    {mf : MovieFeat} (hmf : mf ∈ fms) {t : String} (ht : t ∈ mf.tokens.dedup) :
    vecAt mf.features (List.indexOf t vocab)
      = tfidf movies.length (mf.tokens.count t) (maxTF mf.tokens)
          (dfCount movies t) := by
  rcases featurize_some_parts h with ⟨hv, hall⟩
  subst hv
  rcases featurizeAll_mem hall mf hmf with ⟨m, hm, htok, hrow⟩
  rcases featurizeRow_some hrow with ⟨_, hfeat⟩
  rw [htok] at ht ⊢
  rw [hfeat, vecAt_map]
  have htmem : t ∈ m.tokens := List.mem_dedup.1 ht
  have htv : t ∈ buildVocab movies := mem_buildVocab.2 ⟨m, hm, htmem⟩
  have hsingle : m.tokens.dedup.filter
      (fun s => List.indexOf s (buildVocab movies)
        == List.indexOf t (buildVocab movies)) = [t] := by
    apply filter_eq_singleton (List.nodup_dedup m.tokens) ht
    · simp
    · intro b hb hpb
      have hbv : b ∈ buildVocab movies :=
        mem_buildVocab.2 ⟨m, hm, List.mem_dedup.1 hb⟩
      have hidx : List.indexOf b (buildVocab movies)
          = List.indexOf t (buildVocab movies) := by simpa using hpb
      exact (List.indexOf_inj hbv htv).1 hidx
  rw [hsingle]
  simp

/-- C2: the feature weight that `featurize` stores for a distinct token `t`
of a movie `d` is `(tf(t,d) / max_tf(d)) * log10(N / df(t))`, where
`tf(t,d)` counts `t` in `d`'s token sequence, `max_tf(d)` is the largest
count of any single term of `d`, `N` is the number of movies, and `df(t)`
counts the movies whose lowercased genre string contains `t` as a
substring. -/
theorem c2_tfidf_weight {movies : List MovieTok} {fms : List MovieFeat}
    {vocab : List String} (h : featurize movies = some (fms, vocab))
    {mf : MovieFeat} (hmf : mf ∈ fms) {t : String} (ht : t ∈ mf.tokens.dedup) :
    vecAt mf.features (List.indexOf t vocab)
      = ((mf.tokens.count t : ℝ) / (maxTF mf.tokens : ℝ))
        * Real.logb 10 ((movies.length : ℝ) / (dfCount movies t : ℝ)) := by
  rw [vecAt_feature h hmf ht]
  rfl

lemma tfidf_nonneg {N tf maxtf df : Nat} (hdfN : df ≤ N) :
    0 ≤ tfidf N tf maxtf df := by
  unfold tfidf
  rcases Nat.eq_zero_or_pos df with hdf | hdf
  · rw [hdf]
    simp [Real.logb_zero]
  · apply mul_nonneg
    · exact div_nonneg (Nat.cast_nonneg _) (Nat.cast_nonneg _)
    · apply Real.logb_nonneg (by norm_num)
      rw [one_le_div (by exact_mod_cast hdf)]
      exact_mod_cast hdfN

lemma tfidf_ne_zero_iff {N tf maxtf df : Nat} (htf : 1 ≤ tf) (hmax : tf ≤ maxtf)
    (hdf1 : 1 ≤ df) (hdfN : df ≤ N) :
    tfidf N tf maxtf df ≠ 0 ↔ df < N := by
  have h1 : (0 : ℝ) < (tf : ℝ) := by exact_mod_cast htf
  have h2 : (0 : ℝ) < (maxtf : ℝ) := by
    have : 1 ≤ maxtf := Nat.le_trans htf hmax
    exact_mod_cast this
  have hq : (0 : ℝ) < (tf : ℝ) / (maxtf : ℝ) := div_pos h1 h2
  have hdfpos : (0 : ℝ) < (df : ℝ) := by exact_mod_cast hdf1
  constructor
  · intro hne
    by_contra hc
    have hdfeq : df = N := Nat.le_antisymm hdfN (Nat.le_of_not_lt hc)
    have hNpos : (0 : ℝ) < (N : ℝ) := hdfeq ▸ hdfpos
    have hone : ((N : ℝ) / (df : ℝ)) = 1 := by
      rw [hdfeq]
      exact div_self (ne_of_gt hNpos)
    apply hne
    unfold tfidf
    rw [hone, Real.logb_one, mul_zero]
  · intro hlt
    have hgt : 1 < (N : ℝ) / (df : ℝ) := by
      rw [one_lt_div hdfpos]
      exact_mod_cast hlt
    have hpos : 0 < Real.logb 10 ((N : ℝ) / (df : ℝ)) :=
      Real.logb_pos (by norm_num) hgt
    exact ne_of_gt (mul_pos hq hpos)

lemma dfCount_le_length (movies : List MovieTok) (t : String) :
    dfCount movies t ≤ movies.length :=
  List.countP_le_length _


lemma tokenize_tokens {movies : List Movie} :
    ∀ m ∈ tokenize movies, m.tokens = tokenize_string m.genres := by
  intro m hm
  rcases List.mem_map.1 hm with ⟨m0, _, rfl⟩
  rfl

lemma featurize_horror :
    featurize (tokenize [⟨1, "Horror"⟩])
      = some ([⟨1, "Horror", ["horror"], ⟨1, [(0, 0)]⟩⟩], ["horror"]) := by
  have hm : tokenize [⟨1, "Horror"⟩] = [⟨1, "Horror", ["horror"]⟩] := by decide
  have hrow : featurizeRow ["horror"] 1 (dfCount [⟨1, "Horror", ["horror"]⟩]) ["horror"]
      = some ⟨1, [(0, 0)]⟩ := by
    have hd : (["horror"] : List String).dedup = ["horror"] := by decide
    have hdf : dfCount [⟨1, "Horror", ["horror"]⟩] "horror" = 1 := by decide
    have hcnt : (["horror"] : List String).count "horror" = 1 := by decide
    have hmx : maxTF ["horror"] = 1 := by decide
    have hidx : List.indexOf "horror" ["horror"] = 0 := by decide
    have hlen : (["horror"] : List String).length = 1 := by decide
    have htf : tfidf 1 1 1 1 = 0 := by
      unfold tfidf
      norm_num [Real.logb_one]
    unfold featurizeRow
    rw [if_neg (by decide : ¬ ((["horror"] : List String).isEmpty = true))]
    rw [hd]
    simp only [List.map_cons, List.map_nil]
    rw [hcnt, hmx, hdf, hidx, hlen, htf]
  have hall : featurizeAll ["horror"] 1 (dfCount [⟨1, "Horror", ["horror"]⟩])
      [⟨1, "Horror", ["horror"]⟩]
      = some [⟨1, "Horror", ["horror"], ⟨1, [(0, 0)]⟩⟩] := by
    rw [featurizeAll, hrow]
    rfl
  rw [hm]
  unfold featurize
  show Option.map (fun fms => (fms, buildVocab [⟨1, "Horror", ["horror"]⟩]))
      (featurizeAll (buildVocab [⟨1, "Horror", ["horror"]⟩])
        ([⟨1, "Horror", ["horror"]⟩] : List MovieTok).length
        (dfCount [⟨1, "Horror", ["horror"]⟩]) [⟨1, "Horror", ["horror"]⟩])
      = some ([⟨1, "Horror", ["horror"], ⟨1, [(0, 0)]⟩⟩], ["horror"])
  have hv : buildVocab [⟨1, "Horror", ["horror"]⟩] = ["horror"] := by decide
  rw [hv]
  have hlen1 : ([⟨1, "Horror", ["horror"]⟩] : List MovieTok).length = 1 := rfl
  rw [hlen1, hall]
  rfl

/-- C3 counterexample: on the single-movie catalog `[(1, "Horror")]` the
term `"horror"` is a distinct token of the movie with vocabulary index 0,
yet the feature vector stores the value 0 there (`df = N = 1` makes
`log10(N/df) = 0`), so the set of non-zero indices (empty) is NOT the set
of the movie's distinct-token indices (which is `{0}`). -/
theorem c3_counterexample :
    featurize (tokenize [⟨1, "Horror"⟩])
      = some ([⟨1, "Horror", ["horror"], ⟨1, [(0, 0)]⟩⟩], ["horror"])
    ∧ vecAt ⟨1, [(0, 0)]⟩ 0 = 0
    ∧ "horror" ∈ (["horror"] : List String).dedup
    ∧ List.indexOf "horror" ["horror"] = 0 := by
  refine ⟨featurize_horror, ?_, by decide, by decide⟩
  simp [vecAt]

/-- C3 amended: a vocabulary index holds a non-zero feature value exactly
when it is the index of a distinct token of the movie whose document
frequency is strictly below the number of movies; in particular every
non-zero index is the index of one of the movie's distinct tokens, but a
token whose document frequency equals the number of movies is stored with
weight zero. -/
theorem c3_amended {movies : List Movie} {fms : List MovieFeat}
    {vocab : List String}
    (h : featurize (tokenize movies) = some (fms, vocab))
    {mf : MovieFeat} (hmf : mf ∈ fms) (i : Nat) :
    vecAt mf.features i ≠ 0
      ↔ ∃ t ∈ mf.tokens.dedup, List.indexOf t vocab = i
          ∧ dfCount (tokenize movies) t < (tokenize movies).length := by
  rcases featurize_some_parts h with ⟨hv, hall⟩
  subst hv
  rcases featurizeAll_mem hall mf hmf with ⟨m, hm, htok, hrow⟩
  rcases featurizeRow_some hrow with ⟨_, hfeat⟩
  rw [htok]
  rw [hfeat, vecAt_map]
  by_cases hex : ∃ t ∈ m.tokens.dedup,
      List.indexOf t (buildVocab (tokenize movies)) = i
  · rcases hex with ⟨t0, ht0, hi0⟩
    have ht0mem : t0 ∈ m.tokens := List.mem_dedup.1 ht0
    have ht0v : t0 ∈ buildVocab (tokenize movies) :=
      mem_buildVocab.2 ⟨m, hm, ht0mem⟩
    have hsingle : m.tokens.dedup.filter
        (fun s => List.indexOf s (buildVocab (tokenize movies)) == i) = [t0] := by
      apply filter_eq_singleton (List.nodup_dedup m.tokens) ht0
      · simp [hi0]
      · intro b hb hpb
        have hbv : b ∈ buildVocab (tokenize movies) :=
          mem_buildVocab.2 ⟨m, hm, List.mem_dedup.1 hb⟩
        have hidx : List.indexOf b (buildVocab (tokenize movies))
            = List.indexOf t0 (buildVocab (tokenize movies)) := by
          rw [hi0]
          simpa using hpb
        exact (List.indexOf_inj hbv ht0v).1 hidx
    rw [hsingle]
    simp only [List.map_cons, List.map_nil, List.sum_cons, List.sum_nil, add_zero]
    have hne : tfidf (tokenize movies).length (m.tokens.count t0) (maxTF m.tokens)
        (dfCount (tokenize movies) t0) ≠ 0
        ↔ dfCount (tokenize movies) t0 < (tokenize movies).length := by
      apply tfidf_ne_zero_iff
      · exact List.count_pos_iff.2 ht0mem
      · exact count_le_maxTF ht0
      · exact c8_df_positive (tokenize movies) tokenize_tokens t0 ht0v
      · exact dfCount_le_length _ _
    constructor
    · intro hval
      exact ⟨t0, ht0, hi0, hne.1 hval⟩
    · rintro ⟨t1, ht1, hi1, hdf1⟩
      have ht1v : t1 ∈ buildVocab (tokenize movies) :=
        mem_buildVocab.2 ⟨m, hm, List.mem_dedup.1 ht1⟩
      have ht1t0 : t1 = t0 := by
        apply (List.indexOf_inj ht1v ht0v).1
        rw [hi1, hi0]
      rw [ht1t0] at hdf1
      exact hne.2 hdf1
  · have hnil : m.tokens.dedup.filter
        (fun s => List.indexOf s (buildVocab (tokenize movies)) == i) = [] := by
      rw [List.filter_eq_nil_iff]
      intro b hb hpb
      exact hex ⟨b, hb, by simpa using hpb⟩
    rw [hnil]
    constructor
    · intro hval
      simp at hval
    · rintro ⟨t1, ht1, hi1, _⟩
      exact absurd ⟨t1, ht1, hi1⟩ hex

/-- Every entry value stored by `featurize` is a tf-idf weight with
`df ≤ N`, hence non-negative. -/
lemma featurize_entries_nonneg {movies : List MovieTok} {fms : List MovieFeat}
    {vocab : List String} (h : featurize movies = some (fms, vocab)) :
    ∀ mf ∈ fms, ∀ e ∈ mf.features.entries, 0 ≤ e.2 := by
  intro mf hmf e he
  rcases featurize_some_parts h with ⟨hv, hall⟩
  rcases featurizeAll_mem hall mf hmf with ⟨m, _, _, hrow⟩
  rcases featurizeRow_some hrow with ⟨_, hfeat⟩
  rw [hfeat] at he
  simp only at he
  rcases List.mem_map.1 he with ⟨term, _, rfl⟩
  exact tfidf_nonneg (dfCount_le_length _ _)


/-! ## Prediction lemmas -/

lemma head?_mem {α : Type} {l : List α} {a : α} (h : l.head? = some a) : a ∈ l := by
  rcases List.head?_eq_some_iff.1 h with ⟨ys, rfl⟩
  simp

lemma rowSims_elim {movies : List MovieFeat} {tid : Nat} :
    ∀ {us : List Rating} {sims : List ℝ},
      rowSims movies tid us = some sims →
      sims.length = us.length
      ∧ ∀ (j : Nat) (u : Rating), us[j]? = some u →
          ∃ ftr fte s,
            (movies.filter (fun mm => mm.movieId == u.movieId)).head? = some ftr
            ∧ (movies.filter (fun mm => mm.movieId == tid)).head? = some fte
            ∧ cosine_sim ftr.features fte.features = some s
            ∧ sims[j]? = some s := by
  intro us
  induction us with
  | nil =>
    intro sims h
    have h2 : sims = [] := by
      simp only [rowSims, Option.some.injEq] at h
      exact h.symm
    subst h2
    refine ⟨rfl, ?_⟩
    intro j u hj
    simp at hj
  | cons u us ih =>
    intro sims h
    rw [rowSims] at h
    cases h1 : (movies.filter (fun mm => mm.movieId == u.movieId)).head? with
    | none => rw [h1] at h; simp at h
    | some ftr =>
      cases h2 : (movies.filter (fun mm => mm.movieId == tid)).head? with
      | none => rw [h1, h2] at h; simp at h
      | some fte =>
        rw [h1, h2] at h
        simp only [] at h
        cases h3 : cosine_sim ftr.features fte.features with
        | none => rw [h3] at h; simp at h
        | some s =>
          cases h4 : rowSims movies tid us with
          | none => rw [h3, h4] at h; simp at h
          | some rest =>
            rw [h3, h4] at h
            simp only [Option.some.injEq] at h
            rcases ih h4 with ⟨hlen, hpt⟩
            refine ⟨by rw [← h]; simp [hlen], ?_⟩
            intro j v hj
            cases j with
            | zero =>
              rw [List.getElem?_cons_zero] at hj
              have hv : v = u := (Option.some.inj hj).symm
              subst hv
              rw [← h]
              exact ⟨ftr, fte, s, h1, rfl, h3, by rw [List.getElem?_cons_zero]⟩
            | succ j =>
              rw [List.getElem?_cons_succ] at hj
              rcases hpt j v hj with ⟨ftr2, fte2, s2, a1, a2, a3, a4⟩
              refine ⟨ftr2, fte2, s2, a1, by rw [← h2]; exact a2, a3, ?_⟩
              rw [← h, List.getElem?_cons_succ]
              exact a4

lemma rowSims_mem_movies {movies : List MovieFeat} {tid : Nat} :
    ∀ {us : List Rating} {sims : List ℝ},
      rowSims movies tid us = some sims →
      ∀ s ∈ sims, ∃ a b : MovieFeat, a ∈ movies ∧ b ∈ movies
        ∧ cosine_sim a.features b.features = some s := by
  intro us
  induction us with
  | nil =>
    intro sims h s hs
    have h2 : sims = [] := by
      simp only [rowSims, Option.some.injEq] at h
      exact h.symm
    subst h2
    simp at hs
  | cons u us ih =>
    intro sims h s hs
    rw [rowSims] at h
    cases h1 : (movies.filter (fun mm => mm.movieId == u.movieId)).head? with
    | none => rw [h1] at h; simp at h
    | some ftr =>
      cases h2 : (movies.filter (fun mm => mm.movieId == tid)).head? with
      | none => rw [h1, h2] at h; simp at h
      | some fte =>
        rw [h1, h2] at h
        simp only [] at h
        cases h3 : cosine_sim ftr.features fte.features with
        | none => rw [h3] at h; simp at h
        | some s0 =>
          cases h4 : rowSims movies tid us with
          | none => rw [h3, h4] at h; simp at h
          | some rest =>
            rw [h3, h4] at h
            simp only [Option.some.injEq] at h
            rw [← h] at hs
            rcases List.mem_cons.1 hs with h5 | h5
            · refine ⟨ftr, fte, ?_, ?_, by rw [← h5] at h3; exact h3⟩
              · exact (List.mem_filter.1 (head?_mem h1)).1
              · exact (List.mem_filter.1 (head?_mem h2)).1
            · exact ih h4 s h5

lemma predictRow_def (movies : List MovieFeat) (ratings_train : List Rating)
    (r : Rating) :
    predictRow movies ratings_train r
      = match rowSims movies r.movieId
            (ratings_train.filter (fun u => u.userId == r.userId)) with
        | none => none
        | some arr =>
          if 0 < ((((ratings_train.filter (fun u => u.userId == r.userId)).map
                Rating.rating).zip arr).map (fun q => q.1 * q.2)).sum
          then some (((((ratings_train.filter (fun u => u.userId == r.userId)).map
                Rating.rating).zip arr).map (fun q => q.1 * q.2)).sum / arr.sum)
          else if (ratings_train.filter (fun u => u.userId == r.userId)).length = 0
          then none
          else some (((ratings_train.filter (fun u => u.userId == r.userId)).map
                Rating.rating).sum
              / ((ratings_train.filter (fun u => u.userId == r.userId)).length : ℝ)) :=
  rfl

lemma predictRow_elim {movies : List MovieFeat} {ratings_train : List Rating}
    {r : Rating} {p : ℝ} (h : predictRow movies ratings_train r = some p) :
    ∃ sims,
      rowSims movies r.movieId
          (ratings_train.filter (fun u => u.userId == r.userId)) = some sims
      ∧ ratings_train.filter (fun u => u.userId == r.userId) ≠ []
      ∧ p = (if 0 < ((((ratings_train.filter (fun u => u.userId == r.userId)).map
                  Rating.rating).zip sims).map (fun q => q.1 * q.2)).sum
             then ((((ratings_train.filter (fun u => u.userId == r.userId)).map
                  Rating.rating).zip sims).map (fun q => q.1 * q.2)).sum / sims.sum
             else ((ratings_train.filter (fun u => u.userId == r.userId)).map
                  Rating.rating).sum
               / ((ratings_train.filter (fun u => u.userId == r.userId)).length : ℝ)) := by
  rw [predictRow_def] at h
  cases hs : rowSims movies r.movieId
      (ratings_train.filter (fun u => u.userId == r.userId)) with
  | none => rw [hs] at h; simp at h
  | some sims =>
    rw [hs] at h
    simp only [] at h
    refine ⟨sims, rfl, ?_, ?_⟩
    · intro hnil
      rw [hnil] at h hs
      have hsims : sims = [] := by
        have hl := (rowSims_elim hs).1
        exact List.length_eq_zero.1 (by simpa using hl)
      rw [hsims] at h
      simp at h
    · by_cases hS : 0 < ((((ratings_train.filter (fun u => u.userId == r.userId)).map
          Rating.rating).zip sims).map (fun q => q.1 * q.2)).sum
      · rw [if_pos hS]
        rw [if_pos hS] at h
        exact (Option.some.inj h).symm
      · rw [if_neg hS]
        rw [if_neg hS] at h
        by_cases hlen : (ratings_train.filter (fun u => u.userId == r.userId)).length = 0
        · rw [if_pos hlen] at h
          simp at h
        · rw [if_neg hlen] at h
          exact (Option.some.inj h).symm

lemma make_predictions_elim {movies : List MovieFeat} {ratings_train : List Rating} :
    ∀ {test : List Rating} {preds : List ℝ},
      make_predictions movies ratings_train test = some preds →
      preds.length = test.length
      ∧ ∀ (i : Nat) (r : Rating), test[i]? = some r →
          ∃ p, predictRow movies ratings_train r = some p ∧ preds[i]? = some p := by
  intro test
  induction test with
  | nil =>
    intro preds h
    have h2 : preds = [] := by
      simp only [make_predictions, Option.some.injEq] at h
      exact h.symm
    subst h2
    refine ⟨rfl, ?_⟩
    intro i r hi
    simp at hi
  | cons r rs ih =>
    intro preds h
    rw [make_predictions] at h
    cases h1 : predictRow movies ratings_train r with
    | none => rw [h1] at h; simp at h
    | some p =>
      cases h2 : make_predictions movies ratings_train rs with
      | none => rw [h1, h2] at h; simp at h
      | some ps =>
        rw [h1, h2] at h
        simp only [Option.some.injEq] at h
        rcases ih h2 with ⟨hlen, hpt⟩
        refine ⟨by rw [← h]; simp [hlen], ?_⟩
        intro i rr hi
        cases i with
        | zero =>
          rw [List.getElem?_cons_zero] at hi
          have hv : rr = r := (Option.some.inj hi).symm
          subst hv
          rw [← h]
          exact ⟨p, h1, by rw [List.getElem?_cons_zero]⟩
        | succ i =>
          rw [List.getElem?_cons_succ] at hi
          rcases hpt i rr hi with ⟨p2, a1, a2⟩
          refine ⟨p2, a1, ?_⟩
          rw [← h, List.getElem?_cons_succ]
          exact a2


/-- C1: whenever `make_predictions` succeeds, it returns exactly one
prediction per test row in test order; for each test row the user's
training rows are gathered, each training movie's cosine similarity to the
target movie is computed, `S = Σ rating·similarity` and `W = Σ similarity`
run over ALL of the user's training movies, and the prediction is `S / W`
when `S > 0` and otherwise the arithmetic mean of the user's training
ratings (the user has at least one training rating). -/
theorem c1_make_predictions {movies : List MovieFeat}
    {ratings_train ratings_test : List Rating} {preds : List ℝ}
    (h : make_predictions movies ratings_train ratings_test = some preds) :
    preds.length = ratings_test.length
    ∧ ∀ (i : Nat) (r : Rating), ratings_test[i]? = some r →
        ∃ sims,
          rowSims movies r.movieId
              (ratings_train.filter (fun u => u.userId == r.userId)) = some sims
          ∧ ratings_train.filter (fun u => u.userId == r.userId) ≠ []
          ∧ preds[i]? = some
              (if 0 < ((((ratings_train.filter (fun u => u.userId == r.userId)).map
                    Rating.rating).zip sims).map (fun q => q.1 * q.2)).sum
               then ((((ratings_train.filter (fun u => u.userId == r.userId)).map
                    Rating.rating).zip sims).map (fun q => q.1 * q.2)).sum / sims.sum
               else ((ratings_train.filter (fun u => u.userId == r.userId)).map
                    Rating.rating).sum
                 / ((ratings_train.filter (fun u => u.userId == r.userId)).length : ℝ)) := by
  rcases make_predictions_elim h with ⟨hlen, hpt⟩
  refine ⟨hlen, ?_⟩
  intro i r hi
  rcases hpt i r hi with ⟨p, hp, hip⟩
  rcases predictRow_elim hp with ⟨sims, hs, hne, hform⟩
  refine ⟨sims, hs, hne, ?_⟩
  rw [hip, hform]

/-! ## Concrete evaluation of the prediction pipeline -/

lemma cosine_sim_wAB : cosine_sim wMovieA.features wMovieB.features = some 0 := by
  have hsa : sqnormData wMovieA.features = 1 := by
    show ((([((0 : Nat), (1 : ℝ))]).map (fun e => e.2 * e.2))).sum = 1
    norm_num
  have hsb : sqnormData wMovieB.features = 1 := by
    show ((([((1 : Nat), (1 : ℝ))]).map (fun e => e.2 * e.2))).sum = 1
    norm_num
  have hna : normOf wMovieA.features = 1 := by
    rw [normOf, hsa, Real.sqrt_one]
  have hnb : normOf wMovieB.features = 1 := by
    rw [normOf, hsb, Real.sqrt_one]
  have hdot : dotFull wMovieA.features wMovieB.features = 0 := by
    have hb0 : vecAt wMovieB.features 0 = 0 := by
      show ((([((1 : Nat), (1 : ℝ))]).filter (fun e => e.1 == 0)).map Prod.snd).sum = 0
      norm_num
    have ha1 : vecAt wMovieA.features 1 = 0 := by
      show ((([((0 : Nat), (1 : ℝ))]).filter (fun e => e.1 == 1)).map Prod.snd).sum = 0
      norm_num
    show ((List.range 2).map
        (fun i => vecAt wMovieB.features i * vecAt wMovieA.features i)).sum = 0
    have hr2 : List.range 2 = [0, 1] := rfl
    rw [hr2]
    simp only [List.map_cons, List.map_nil, List.sum_cons, List.sum_nil]
    rw [hb0, ha1]
    ring
  unfold cosine_sim
  rw [hna, hnb, hdot]
  rw [if_neg (by norm_num)]
  norm_num

lemma rowSims_concrete :
    rowSims [wMovieA, wMovieB] 2 [⟨9, 1, 4⟩] = some [0] := by
  have hf1 : List.filter
      (fun m => m.movieId == (⟨9, 1, 4⟩ : Rating).movieId) [wMovieA, wMovieB]
      = [wMovieA] := by
    simp +decide [wMovieA, wMovieB]
  have hf2 : List.filter (fun m => m.movieId == (2 : Nat)) [wMovieA, wMovieB]
      = [wMovieB] := by
    simp +decide [wMovieA, wMovieB]
  rw [rowSims, hf1, hf2]
  simp only [List.head?]
  rw [cosine_sim_wAB, rowSims]

lemma predictRow_concrete :
    predictRow [wMovieA, wMovieB] wTrain ⟨9, 2, 0⟩ = some 4 := by
  have husers : List.filter
      (fun u => u.userId == (⟨9, 2, 0⟩ : Rating).userId) wTrain = [⟨9, 1, 4⟩] := by
    simp +decide [wTrain]
  rw [predictRow_def]
  rw [husers]
  have hmid : (⟨9, 2, 0⟩ : Rating).movieId = 2 := rfl
  rw [hmid, rowSims_concrete]
  simp only []
  have hmap : ([⟨9, 1, 4⟩] : List Rating).map Rating.rating = [(4 : ℝ)] := rfl
  rw [hmap]
  have hS : ((([(4 : ℝ)]).zip [(0 : ℝ)]).map (fun q => q.1 * q.2)).sum = 0 := by
    rw [List.zip_cons_cons]
    simp only [List.zip_nil_left, List.map_cons, List.map_nil, List.sum_cons, List.sum_nil]
    ring
  rw [hS]
  rw [if_neg (by norm_num)]
  rw [if_neg (by norm_num : ¬ (([⟨9, 1, 4⟩] : List Rating).length = 0))]
  norm_num

lemma make_predictions_concrete :
    make_predictions [wMovieA, wMovieB] wTrain wTest = some [4] := by
  have ht : wTest = [⟨9, 2, 0⟩] := rfl
  rw [ht, make_predictions, predictRow_concrete, make_predictions]

/-- Witness for C1 at a concrete two-movie, one-training-rating instance:
the call succeeds, returns one prediction for the single test row, and
that prediction follows the `S > 0` / mean-fallback formula. -/
theorem c1_witness :
    ([(4 : ℝ)] : List ℝ).length = ([⟨9, 2, 0⟩] : List Rating).length
    ∧ ∃ sims,
        rowSims [wMovieA, wMovieB] (⟨9, 2, 0⟩ : Rating).movieId
            (wTrain.filter (fun u => u.userId == (⟨9, 2, 0⟩ : Rating).userId))
          = some sims
        ∧ wTrain.filter (fun u => u.userId == (⟨9, 2, 0⟩ : Rating).userId) ≠ []
        ∧ ([(4 : ℝ)] : List ℝ)[0]? = some
            (if 0 < ((((wTrain.filter
                  (fun u => u.userId == (⟨9, 2, 0⟩ : Rating).userId)).map
                  Rating.rating).zip sims).map (fun q => q.1 * q.2)).sum
             then ((((wTrain.filter
                  (fun u => u.userId == (⟨9, 2, 0⟩ : Rating).userId)).map
                  Rating.rating).zip sims).map (fun q => q.1 * q.2)).sum / sims.sum
             else ((wTrain.filter
                  (fun u => u.userId == (⟨9, 2, 0⟩ : Rating).userId)).map
                  Rating.rating).sum
               / ((wTrain.filter
                  (fun u => u.userId == (⟨9, 2, 0⟩ : Rating).userId)).length : ℝ)) := by
  have h := c1_make_predictions (make_predictions_concrete)
  exact ⟨h.1, h.2 0 ⟨9, 2, 0⟩ rfl⟩


/-! ## Bounds for C10 -/

lemma vecAt_nonneg {v : SparseVec} (hv : ∀ e ∈ v.entries, 0 ≤ e.2) (i : Nat) :
    0 ≤ vecAt v i := by
  unfold vecAt
  apply List.sum_nonneg
  intro x hx
  rcases List.mem_map.1 hx with ⟨e, he, rfl⟩
  exact hv e (List.mem_filter.1 he).1

lemma cosine_sim_nonneg {a b : SparseVec}
    (ha : ∀ e ∈ a.entries, 0 ≤ e.2) (hb : ∀ e ∈ b.entries, 0 ≤ e.2)
    {v : ℝ} (h : cosine_sim a b = some v) : 0 ≤ v := by
  unfold cosine_sim at h
  by_cases hz : normOf a * normOf b = 0
  · rw [if_pos hz] at h
    simp at h
  · rw [if_neg hz] at h
    rw [← Option.some.inj h]
    apply div_nonneg
    · apply List.sum_nonneg
      intro x hx
      rcases List.mem_map.1 hx with ⟨i, _, rfl⟩
      exact mul_nonneg (vecAt_nonneg hb i) (vecAt_nonneg ha i)
    · exact mul_nonneg (Real.sqrt_nonneg _) (Real.sqrt_nonneg _)

lemma rowSims_nonneg {movies : List MovieFeat} {tid : Nat}
    (hmov : ∀ m ∈ movies, ∀ e ∈ m.features.entries, 0 ≤ e.2)
    {us : List Rating} {sims : List ℝ}
    (h : rowSims movies tid us = some sims) : ∀ s ∈ sims, 0 ≤ s := by
  intro s hs
  rcases rowSims_mem_movies h s hs with ⟨a, b, hamem, hbmem, hab⟩
  exact cosine_sim_nonneg (hmov a hamem) (hmov b hbmem) hab

lemma zip_mul_sum_le {hi : ℝ} :
    ∀ (rs ss : List ℝ), ss.length = rs.length →
      (∀ s ∈ ss, 0 ≤ s) → (∀ x ∈ rs, x ≤ hi) →
      ((rs.zip ss).map (fun q => q.1 * q.2)).sum ≤ hi * ss.sum := by
  intro rs
  induction rs with
  | nil =>
    intro ss hlen _ _
    have hss : ss = [] := List.length_eq_zero.1 (by simpa using hlen)
    subst hss
    simp
  | cons r rs ih =>
    intro ss hlen hs hr
    cases ss with
    | nil => simp at hlen
    | cons s ss =>
      rw [List.zip_cons_cons, List.map_cons, List.sum_cons, List.sum_cons, mul_add]
      apply add_le_add
      · exact mul_le_mul_of_nonneg_right (hr r (by simp)) (hs s (by simp))
      · exact ih ss (by simpa using hlen) (fun x hx => hs x (by simp [hx]))
          (fun x hx => hr x (by simp [hx]))

lemma le_zip_mul_sum {lo : ℝ} :
    ∀ (rs ss : List ℝ), ss.length = rs.length →
      (∀ s ∈ ss, 0 ≤ s) → (∀ x ∈ rs, lo ≤ x) →
      lo * ss.sum ≤ ((rs.zip ss).map (fun q => q.1 * q.2)).sum := by
  intro rs
  induction rs with
  | nil =>
    intro ss hlen _ _
    have hss : ss = [] := List.length_eq_zero.1 (by simpa using hlen)
    subst hss
    simp
  | cons r rs ih =>
    intro ss hlen hs hr
    cases ss with
    | nil => simp at hlen
    | cons s ss =>
      rw [List.zip_cons_cons, List.map_cons, List.sum_cons, List.sum_cons, mul_add]
      apply add_le_add
      · exact mul_le_mul_of_nonneg_right (hr r (by simp)) (hs s (by simp))
      · exact ih ss (by simpa using hlen) (fun x hx => hs x (by simp [hx]))
          (fun x hx => hr x (by simp [hx]))

lemma mean_bounds {l : List ℝ} {lo hi : ℝ} (hne : l ≠ [])
    (hb : ∀ x ∈ l, lo ≤ x ∧ x ≤ hi) :
    lo ≤ l.sum / (l.length : ℝ) ∧ l.sum / (l.length : ℝ) ≤ hi := by
  have hlpos : (0 : ℝ) < (l.length : ℝ) := by
    have : 0 < l.length := List.length_pos.2 hne
    exact_mod_cast this
  constructor
  · rw [le_div_iff₀ hlpos]
    have h1 := List.card_nsmul_le_sum l lo (fun x hx => (hb x hx).1)
    rw [nsmul_eq_mul] at h1
    calc lo * (l.length : ℝ) = (l.length : ℝ) * lo := by ring
    _ ≤ l.sum := h1
  · rw [div_le_iff₀ hlpos]
    have h1 := List.sum_le_card_nsmul l hi (fun x hx => (hb x hx).2)
    rw [nsmul_eq_mul] at h1
    calc l.sum ≤ (l.length : ℝ) * hi := h1
    _ = hi * (l.length : ℝ) := by ring



lemma featurize_two :
    featurize (tokenize [⟨123, "Horror|Romance"⟩, ⟨456, "Sci-Fi"⟩])
      = some ([fHR, fSF], vocabHRS) := by
  have hm : tokenize [⟨123, "Horror|Romance"⟩, ⟨456, "Sci-Fi"⟩]
      = [⟨123, "Horror|Romance", ["horror", "romance"]⟩,
         ⟨456, "Sci-Fi", ["sci-fi"]⟩] := by decide
  have htf : tfidf 2 1 1 1 = Real.logb 10 2 := by
    unfold tfidf
    norm_num
  have hrow1 : featurizeRow vocabHRS 2
      (dfCount [⟨123, "Horror|Romance", ["horror", "romance"]⟩,
                ⟨456, "Sci-Fi", ["sci-fi"]⟩])
      ["horror", "romance"]
      = some ⟨3, [(0, Real.logb 10 2), (1, Real.logb 10 2)]⟩ := by
    have hd : (["horror", "romance"] : List String).dedup = ["horror", "romance"] := by
      decide
    have h1 : (["horror", "romance"] : List String).count "horror" = 1 := by decide
    have h2 : (["horror", "romance"] : List String).count "romance" = 1 := by decide
    have h3 : maxTF ["horror", "romance"] = 1 := by decide
    have h4 : dfCount [⟨123, "Horror|Romance", ["horror", "romance"]⟩,
        ⟨456, "Sci-Fi", ["sci-fi"]⟩] "horror" = 1 := by decide
    have h5 : dfCount [⟨123, "Horror|Romance", ["horror", "romance"]⟩,
        ⟨456, "Sci-Fi", ["sci-fi"]⟩] "romance" = 1 := by decide
    have h6 : List.indexOf "horror" vocabHRS = 0 := by decide
    have h7 : List.indexOf "romance" vocabHRS = 1 := by decide
    have h8 : (vocabHRS : List String).length = 3 := by decide
    unfold featurizeRow
    rw [if_neg (by decide : ¬ ((["horror", "romance"] : List String).isEmpty = true))]
    rw [hd]
    simp only [List.map_cons, List.map_nil]
    rw [h1, h2, h3, h4, h5, h6, h7, h8, htf]
  have hrow2 : featurizeRow vocabHRS 2
      (dfCount [⟨123, "Horror|Romance", ["horror", "romance"]⟩,
                ⟨456, "Sci-Fi", ["sci-fi"]⟩])
      ["sci-fi"]
      = some ⟨3, [(2, Real.logb 10 2)]⟩ := by
    have hd : (["sci-fi"] : List String).dedup = ["sci-fi"] := by decide
    have h1 : (["sci-fi"] : List String).count "sci-fi" = 1 := by decide
    have h3 : maxTF ["sci-fi"] = 1 := by decide
    have h4 : dfCount [⟨123, "Horror|Romance", ["horror", "romance"]⟩,
        ⟨456, "Sci-Fi", ["sci-fi"]⟩] "sci-fi" = 1 := by decide
    have h6 : List.indexOf "sci-fi" vocabHRS = 2 := by decide
    have h8 : (vocabHRS : List String).length = 3 := by decide
    unfold featurizeRow
    rw [if_neg (by decide : ¬ ((["sci-fi"] : List String).isEmpty = true))]
    rw [hd]
    simp only [List.map_cons, List.map_nil]
    rw [h1, h3, h4, h6, h8, htf]
  have hall : featurizeAll vocabHRS 2
      (dfCount [⟨123, "Horror|Romance", ["horror", "romance"]⟩,
                ⟨456, "Sci-Fi", ["sci-fi"]⟩])
      [⟨123, "Horror|Romance", ["horror", "romance"]⟩, ⟨456, "Sci-Fi", ["sci-fi"]⟩]
      = some [fHR, fSF] := by
    rw [featurizeAll, hrow1, featurizeAll, hrow2, featurizeAll]
    rfl
  rw [hm]
  unfold featurize
  show Option.map
      (fun fms => (fms,
        buildVocab [⟨123, "Horror|Romance", ["horror", "romance"]⟩,
                    ⟨456, "Sci-Fi", ["sci-fi"]⟩]))
      (featurizeAll
        (buildVocab [⟨123, "Horror|Romance", ["horror", "romance"]⟩,
                     ⟨456, "Sci-Fi", ["sci-fi"]⟩])
        ([⟨123, "Horror|Romance", ["horror", "romance"]⟩,
          ⟨456, "Sci-Fi", ["sci-fi"]⟩] : List MovieTok).length
        (dfCount [⟨123, "Horror|Romance", ["horror", "romance"]⟩,
                  ⟨456, "Sci-Fi", ["sci-fi"]⟩])
        [⟨123, "Horror|Romance", ["horror", "romance"]⟩,
         ⟨456, "Sci-Fi", ["sci-fi"]⟩])
      = some ([fHR, fSF], vocabHRS)
  have hv : buildVocab [⟨123, "Horror|Romance", ["horror", "romance"]⟩,
      ⟨456, "Sci-Fi", ["sci-fi"]⟩] = vocabHRS := by decide
  rw [hv]
  have hlen2 : ([⟨123, "Horror|Romance", ["horror", "romance"]⟩,
      ⟨456, "Sci-Fi", ["sci-fi"]⟩] : List MovieTok).length = 2 := rfl
  rw [hlen2, hall]
  rfl

/-- Witness for C2: on the doctest catalog, the stored weight of the
distinct token `"horror"` of the first movie equals
`(tf / max_tf) * log10(N / df)` at that movie and term. -/
theorem c2_witness :
    vecAt fHR.features (List.indexOf "horror" vocabHRS)
      = ((fHR.tokens.count "horror" : ℝ) / (maxTF fHR.tokens : ℝ))
        * Real.logb 10
            (((tokenize [⟨123, "Horror|Romance"⟩, ⟨456, "Sci-Fi"⟩]).length : ℝ)
              / ((dfCount (tokenize [⟨123, "Horror|Romance"⟩, ⟨456, "Sci-Fi"⟩])
                  "horror" : ℝ))) :=
  c2_tfidf_weight featurize_two (by simp) (by decide)

/-- Witness for the amended C3 on the doctest catalog: index 0 of the first
movie's feature vector is non-zero exactly because it is the index of the
distinct token `"horror"`, whose document frequency 1 is below `N = 2`. -/
theorem c3_witness :
    vecAt fHR.features 0 ≠ 0
      ↔ ∃ t ∈ fHR.tokens.dedup,
          List.indexOf t vocabHRS = 0
          ∧ dfCount (tokenize [⟨123, "Horror|Romance"⟩, ⟨456, "Sci-Fi"⟩]) t
              < (tokenize [⟨123, "Horror|Romance"⟩, ⟨456, "Sci-Fi"⟩]).length :=
  c3_amended featurize_two (by simp) 0

/-- C10: every tf-idf weight stored by `featurize` is non-negative; the
cosine similarity of two entrywise non-negative sparse vectors, when
defined, is non-negative; and every returned prediction lies between the
minimum and the maximum of the test user's training ratings (the `S > 0`
branch is a convex combination of those ratings and the fallback is their
mean). -/
theorem c10_invariants :
    (∀ (movies : List MovieTok) (fms : List MovieFeat) (vocab : List String),
        featurize movies = some (fms, vocab) →
        ∀ mf ∈ fms, ∀ e ∈ mf.features.entries, 0 ≤ e.2)
    ∧ (∀ a b : SparseVec,
        (∀ e ∈ a.entries, 0 ≤ e.2) → (∀ e ∈ b.entries, 0 ≤ e.2) →
        ∀ v : ℝ, cosine_sim a b = some v → 0 ≤ v)
    ∧ (∀ (movies : List MovieFeat) (ratings_train ratings_test : List Rating)
          (preds : List ℝ),
        (∀ m ∈ movies, ∀ e ∈ m.features.entries, 0 ≤ e.2) →
        make_predictions movies ratings_train ratings_test = some preds →
        ∀ (i : Nat) (r : Rating), ratings_test[i]? = some r →
        ∀ p : ℝ, preds[i]? = some p →
        ∃ lo hi : ℝ,
          ((ratings_train.filter (fun u => u.userId == r.userId)).map
            Rating.rating).minimum = (lo : WithTop ℝ)
          ∧ ((ratings_train.filter (fun u => u.userId == r.userId)).map
              Rating.rating).maximum = (hi : WithBot ℝ)
          ∧ lo ≤ p ∧ p ≤ hi) := by
  refine ⟨fun movies fms vocab h => featurize_entries_nonneg h,
          fun a b ha hb v h => cosine_sim_nonneg ha hb h, ?_⟩
  intro movies ratings_train ratings_test preds hmov h i r hi p hp
  rcases make_predictions_elim h with ⟨_, hpt⟩
  rcases hpt i r hi with ⟨p2, hpred, hip2⟩
  rw [hip2] at hp
  have hpp : p2 = p := Option.some.inj hp
  subst hpp
  rcases predictRow_elim hpred with ⟨sims, hs, hne, hform⟩
  have hrts_ne : (ratings_train.filter (fun u => u.userId == r.userId)).map
      Rating.rating ≠ [] := by
    intro hx
    exact hne (by simpa using hx)
  cases hmin : ((ratings_train.filter (fun u => u.userId == r.userId)).map
      Rating.rating).minimum with
  | top => exact absurd (List.minimum_eq_top.1 hmin) hrts_ne
  | coe lo =>
  cases hmax : ((ratings_train.filter (fun u => u.userId == r.userId)).map
      Rating.rating).maximum with
  | bot => exact absurd (List.maximum_eq_bot.1 hmax) hrts_ne
  | coe hi2 =>
  have hlo : ∀ x ∈ (ratings_train.filter (fun u => u.userId == r.userId)).map
      Rating.rating, lo ≤ x := fun x hx => List.minimum_le_of_mem hx hmin
  have hhi : ∀ x ∈ (ratings_train.filter (fun u => u.userId == r.userId)).map
      Rating.rating, x ≤ hi2 := fun x hx => List.le_maximum_of_mem hx hmax
  have hsims_nonneg : ∀ s ∈ sims, 0 ≤ s := rowSims_nonneg hmov hs
  have hlen2 : sims.length = ((ratings_train.filter
      (fun u => u.userId == r.userId)).map Rating.rating).length := by
    rw [List.length_map]
    exact (rowSims_elim hs).1
  have hSle := zip_mul_sum_le ((ratings_train.filter
      (fun u => u.userId == r.userId)).map Rating.rating) sims hlen2 hsims_nonneg hhi
  have hleS := le_zip_mul_sum ((ratings_train.filter
      (fun u => u.userId == r.userId)).map Rating.rating) sims hlen2 hsims_nonneg hlo
  refine ⟨lo, hi2, rfl, rfl, ?_⟩
  by_cases hS : 0 < ((((ratings_train.filter (fun u => u.userId == r.userId)).map
      Rating.rating).zip sims).map (fun q => q.1 * q.2)).sum
  · rw [hform, if_pos hS]
    have hWnn : 0 ≤ sims.sum := List.sum_nonneg hsims_nonneg
    have hW0 : sims.sum ≠ 0 := by
      intro h0
      rw [h0, mul_zero] at hSle
      linarith
    have hWpos : 0 < sims.sum := lt_of_le_of_ne hWnn (Ne.symm hW0)
    constructor
    · rw [le_div_iff₀ hWpos]
      exact hleS
    · rw [div_le_iff₀ hWpos]
      exact hSle
  · rw [hform, if_neg hS]
    have hmb := mean_bounds hrts_ne (fun x hx => ⟨hlo x hx, hhi x hx⟩)
    rw [List.length_map] at hmb
    exact hmb


/-- Witness for C10: the doctest catalog's stored weight `log10 2` is
non-negative; the similarity 0 between the two unit-entry movies is
non-negative; and the concrete prediction 4 lies between the minimum and
maximum (both 4) of user 9's training ratings. -/
theorem c10_witness :
    (0 : ℝ) ≤ Real.logb 10 2
    ∧ (0 : ℝ) ≤ 0
    ∧ ∃ lo hi : ℝ,
        ((wTrain.filter (fun u => u.userId == (⟨9, 2, 0⟩ : Rating).userId)).map
          Rating.rating).minimum = (lo : WithTop ℝ)
        ∧ ((wTrain.filter (fun u => u.userId == (⟨9, 2, 0⟩ : Rating).userId)).map
            Rating.rating).maximum = (hi : WithBot ℝ)
        ∧ lo ≤ 4 ∧ 4 ≤ hi := by
  have ha : ∀ e ∈ wMovieA.features.entries, (0 : ℝ) ≤ e.2 := by
    intro e he
    simp only [wMovieA] at he
    rcases List.mem_cons.1 he with h1 | h1
    · rw [h1]; norm_num
    · simp at h1
  have hb : ∀ e ∈ wMovieB.features.entries, (0 : ℝ) ≤ e.2 := by
    intro e he
    simp only [wMovieB] at he
    rcases List.mem_cons.1 he with h1 | h1
    · rw [h1]; norm_num
    · simp at h1
  have hmov : ∀ m ∈ [wMovieA, wMovieB], ∀ e ∈ m.features.entries, (0 : ℝ) ≤ e.2 := by
    intro m hm
    rcases List.mem_cons.1 hm with h1 | h1
    · rw [h1]; exact ha
    · rcases List.mem_cons.1 h1 with h2 | h2
      · rw [h2]; exact hb
      · simp at h2
  refine ⟨?_, ?_, ?_⟩
  · exact c10_invariants.1 (tokenize [⟨123, "Horror|Romance"⟩, ⟨456, "Sci-Fi"⟩])
      [fHR, fSF] vocabHRS featurize_two fHR (by simp)
      ((0 : Nat), Real.logb 10 2) (by simp [fHR])
  · exact c10_invariants.2.1 wMovieA.features wMovieB.features ha hb 0 cosine_sim_wAB
  · exact c10_invariants.2.2 [wMovieA, wMovieB] wTrain wTest [4] hmov
      make_predictions_concrete 0 ⟨9, 2, 0⟩ rfl 4 rfl

end RecSys
